import Mathlib

/-!
Shallow embedding of `group_by_day.py`: the `Record` model (construction,
equivalence `__eq__`, merge `__add__`) and the grouping loop of `process_csv`.

Modelling conventions:
* Python `Decimal` values are modelled by `ℚ` (exact decimal arithmetic).
* An amount cell of the CSV row is modelled as `Option ℚ`: `none` when the
  cell was the empty string (Python truthiness sends `""` to `None` in
  `__init__`), `some v` when the cell was non-empty and parsed to `v`
  (note the non-empty string "0" is truthy, so a parsed zero is kept).
* Python `str.strip` / `str.lower` / `s.split(' ')[0]` / `in` (substring)
  are modelled by `strip`, `lowerStr`, `datePart`, `containsSubstr` below,
  over the ASCII character model.
-/

/-- Strip characters from both ends of a list, as Python `str.strip()`. -/
def stripList (l : List Char) : List Char :=
  (((l.dropWhile Char.isWhitespace).reverse).dropWhile Char.isWhitespace).reverse

/-- Python `str.strip()` on a string (whitespace at both ends removed). -/
def strip (s : String) : String := ⟨stripList s.data⟩

/-- Python `str.lower()` (ASCII model). -/
def lowerStr (s : String) : String := ⟨s.data.map Char.toLower⟩

/-- Python `date.split(' ')[0]`: the text before the first space, or the
whole string when there is no space. -/
def datePart (s : String) : String := ⟨s.data.takeWhile (fun c => decide (c ≠ ' '))⟩

/-- `listContainsSub needle hay = true` iff `needle` occurs as a contiguous
sublist of `hay` (Python's `needle in hay` on strings). -/
def listContainsSub (needle : List Char) : List Char → Bool
  | [] => needle.isEmpty
  | c :: t => needle.isPrefixOf (c :: t) || listContainsSub needle t

/-- Python substring test `needle in hay`. -/
def containsSubstr (hay needle : String) : Bool := listContainsSub needle.data hay.data

/-- `Record.exchange_exceptions` from the source. -/
def exchange_exceptions : List String := ["Wallet", "Transaction"]

/-- The guard of `Record.__eq__`:
`any(exc.lower() in self.exchange.lower() for exc in self.exchange_exceptions)`. -/
def exchangeExcluded (e : String) : Bool :=
  exchange_exceptions.any (fun exc => containsSubstr (lowerStr e) (lowerStr exc))

/-- A `Record` object, fields in the order of `Record.__init__`. -/
structure Record where
  record_type : String
  buyamt : Option ℚ
  buycur : String
  sellamt : Option ℚ
  sellcur : String
  fee : Option ℚ
  fee_cur : String
  exchange : String
  group : String
  comment : String
  date : String
  tx_id : String
deriving DecidableEq, Repr

/-- One parsed CSV data row, fields in CSV column order.  Amount cells are
pre-parsed: `none` for an empty cell, `some v` for a cell parsing to `v`. -/
structure Row where
  record_type : String
  buyamt : Option ℚ
  buycur : String
  sellamt : Option ℚ
  sellcur : String
  fee : Option ℚ
  fee_cur : String
  exchange : String
  group : String
  comment : String
  date : String
  tx_id : String
deriving DecidableEq, Repr

/-- `Record(*row)`: `__init__` on the twelve CSV strings.  Amounts are kept as
parsed (`""` was already `none`; a non-empty cell is truthy, so even a parsed
zero is kept); `date` is stripped; everything else is stored verbatim. -/
def Record.ofRow (r : Row) : Record :=
  { record_type := r.record_type
    buyamt := r.buyamt
    buycur := r.buycur
    sellamt := r.sellamt
    sellcur := r.sellcur
    fee := r.fee
    fee_cur := r.fee_cur
    exchange := r.exchange
    group := r.group
    comment := r.comment
    date := strip r.date
    tx_id := r.tx_id }

/-- `Record.__eq__`: false outright when `self.exchange` matches an exclusion
string case-insensitively; otherwise conjunction of the five field equalities
and equality of the date parts. -/
def Record.eq (self other : Record) : Bool :=
  if exchangeExcluded self.exchange then false
  else decide (self.record_type = other.record_type ∧ self.buycur = other.buycur ∧
    self.sellcur = other.sellcur ∧ self.exchange = other.exchange ∧
    self.fee_cur = other.fee_cur ∧ datePart self.date = datePart other.date)

/-- `__init__`'s `Decimal(arg) if arg else None` when the argument is already
a `Decimal` or `None` (the `__add__` path): `None` stays `None`, and a zero
`Decimal` is falsy in Python, so it also becomes `None`. -/
def normAmt : Option ℚ → Option ℚ
  | none => none
  | some x => if x = 0 then none else some x

/-- `__add__`'s amount combination: `None if either is None else the sum`. -/
def sumAmt : Option ℚ → Option ℚ → Option ℚ
  | some x, some y => some (x + y)
  | _, _ => none

/-- `Record.__add__`: sums amounts (the result is routed through `__init__`,
whose truthiness test also turns a zero sum into `None` and re-strips the
date), keeps `self`'s identity fields, and fills `group`/`comment` from
`self` when non-empty (Python truthiness on strings), else from `other`. -/
def Record.add (self other : Record) : Record :=
  { record_type := self.record_type
    buyamt := normAmt (sumAmt self.buyamt other.buyamt)
    buycur := self.buycur
    sellamt := normAmt (sumAmt self.sellamt other.sellamt)
    sellcur := self.sellcur
    fee := normAmt (sumAmt self.fee other.fee)
    fee_cur := self.fee_cur
    exchange := self.exchange
    group := if self.group = "" then other.group else self.group
    comment := if self.comment = "" then other.comment else self.comment
    date := strip self.date
    tx_id := self.tx_id }

/-- The filter condition at line 118 of the source:
`record.record_type == "Lost" and record.exchange == "Binance" and "_fee" in record.tx_id`. -/
def isBinanceLostFee (r : Record) : Bool :=
  decide (r.record_type = "Lost") && decide (r.exchange = "Binance") &&
    containsSubstr r.tx_id "_fee"

/-- One iteration of the loop body of `process_csv` for a data row, acting on
the state `(output, previous)`.  Mirrors the source order: the
`previous is None` branch comes first, then the Binance lost-fee filter, then
`record == previous` (note: the incoming record is the LEFT operand of
`__eq__`), then the emit branch.  `previous += record` is
`previous.__add__(record)`. -/
def stepRec (acc : List Record × Option Record) (record : Record) :
    List Record × Option Record :=
  match acc.2 with
  | none => (acc.1, some record)
  | some previous =>
    if isBinanceLostFee record then (acc.1, some previous)
    else if Record.eq record previous then (acc.1, some (Record.add previous record))
    else (acc.1 ++ [previous], some record)

/-- The whole data pass of `process_csv`: fold the loop body over the parsed
data rows starting from `output = []`, `previous = None`, then execute the
unconditional `output.append(previous)` after the loop.  Since `previous` may
still be `None` there (zero data rows), the final output list is a list of
`Option Record`; the writer serialises `none` as the line `"None"`. -/
def process (rows : List Row) : List (Option Record) :=
  ((rows.map Record.ofRow).foldl stepRec ([], none)).1.map some ++
    [((rows.map Record.ofRow).foldl stepRec ([], none)).2]

/-- The reducer as the spec words it: identical to `stepRec` except that the
equivalence predicate is evaluated as `sameGroup(accumulator, r)`, i.e. with
the accumulator as the LEFT operand of `__eq__`.  Used to compare against the
source reducer, which evaluates `record == previous`. -/
def stepRecAccLeft (acc : List Record × Option Record) (record : Record) :
    List Record × Option Record :=
  match acc.2 with
  | none => (acc.1, some record)
  | some previous =>
    if isBinanceLostFee record then (acc.1, some previous)
    else if Record.eq previous record then (acc.1, some (Record.add previous record))
    else (acc.1 ++ [previous], some record)

/-- `process` with the accumulator-left predicate order of the spec. -/
def processAccLeft (rows : List Row) : List (Option Record) :=
  ((rows.map Record.ofRow).foldl stepRecAccLeft ([], none)).1.map some ++
    [((rows.map Record.ofRow).foldl stepRecAccLeft ([], none)).2]

/-- Instrumented loop body: each record is paired with its input position,
and the accumulator keeps the position of the record that STARTED the current
group (a merge keeps `previous.1`; a new group records the incoming
position).  The record components behave exactly as in `stepRec`. -/
def stepRecIdx (acc : List (Nat × Record) × Option (Nat × Record)) (entry : Nat × Record) :
    List (Nat × Record) × Option (Nat × Record) :=
  match acc.2 with
  | none => (acc.1, some entry)
  | some previous =>
    if isBinanceLostFee entry.2 then (acc.1, some previous)
    else if Record.eq entry.2 previous.2 then
      (acc.1, some (previous.1, Record.add previous.2 entry.2))
    else (acc.1 ++ [previous], some entry)

/-- The instrumented data pass over a record sequence. -/
def runIdx (recs : List Record) : List (Nat × Record) × Option (Nat × Record) :=
  recs.enum.foldl stepRecIdx ([], none)

/-- Forget the position components of an instrumented state. -/
def projSt (st : List (Nat × Record) × Option (Nat × Record)) :
    List Record × Option Record :=
  (st.1.map Prod.snd, st.2.map Prod.snd)

/-- The input positions at which the groups of an instrumented state started:
positions of the emitted representatives, then of the pending accumulator. -/
def startsOf (st : List (Nat × Record) × Option (Nat × Record)) : List Nat :=
  st.1.map Prod.fst ++ (st.2.map Prod.fst).toList

/-- The input positions of the first member of each group, in emission order
(the pending final accumulator included). -/
def groupStarts (rows : List Row) : List Nat :=
  startsOf (runIdx (rows.map Record.ofRow))

/-- Invariant of the instrumented loop after consuming positions `< k`. -/
def IdxInv (st : List (Nat × Record) × Option (Nat × Record)) (k : Nat) : Prop :=
  (st.2 = none → st.1 = []) ∧ List.Chain' (· < ·) (startsOf st) ∧
    ∀ i ∈ startsOf st, i < k

/-- First data row of the worked example of the spec (`Trade, 1, BTC, 2, XMR,
0.1, BTC, Poloniex, , , 30.08.2016 13:31, tx1`). -/
def poloRow1 : Row :=
  { record_type := "Trade", buyamt := some 1, buycur := "BTC", sellamt := some 2,
    sellcur := "XMR", fee := some (1/10), fee_cur := "BTC", exchange := "Poloniex",
    group := "", comment := "", date := "30.08.2016 13:31", tx_id := "tx1" }

/-- Second data row of the worked example (`Trade, 3, BTC, 4, XMR, 0.2, BTC,
Poloniex, , , 30.08.2016 14:00, tx1`). -/
def poloRow2 : Row :=
  { record_type := "Trade", buyamt := some 3, buycur := "BTC", sellamt := some 4,
    sellcur := "XMR", fee := some (2/10), fee_cur := "BTC", exchange := "Poloniex",
    group := "", comment := "", date := "30.08.2016 14:00", tx_id := "tx1" }

/-- The record the reducer produces for the worked example. -/
def c7merged : Record := Record.add (Record.ofRow poloRow1) (Record.ofRow poloRow2)

/-- A Binance "Lost" fee row whose `txId` contains `"_fee"`. -/
def lostRow : Row :=
  { record_type := "Lost", buyamt := none, buycur := "", sellamt := some 5,
    sellcur := "BTC", fee := none, fee_cur := "", exchange := "Binance",
    group := "", comment := "", date := "01.01.2020 00:00", tx_id := "123_fee" }

/-- An unremarkable data row used to occupy the accumulator. -/
def plainRow : Row :=
  { record_type := "Deposit", buyamt := none, buycur := "BTC", sellamt := none,
    sellcur := "", fee := none, fee_cur := "", exchange := "Kraken",
    group := "", comment := "", date := "02.02.2021 09:15", tx_id := "t9" }

/-- A row whose exchange `"My Wallet"` matches the `"Wallet"` exclusion. -/
def walletRow : Row :=
  { record_type := "Trade", buyamt := some 1, buycur := "BTC", sellamt := some 2,
    sellcur := "XMR", fee := none, fee_cur := "", exchange := "My Wallet",
    group := "", comment := "", date := "01.01.2020 10:00", tx_id := "tx" }

/-- A record whose buy amount is the (parsed, kept) decimal zero. -/
def zeroRecA : Record :=
  { record_type := "Trade", buyamt := some 0, buycur := "BTC", sellamt := some 1,
    sellcur := "XMR", fee := none, fee_cur := "", exchange := "Poloniex",
    group := "", comment := "", date := "30.08.2016 13:31", tx_id := "a" }

/-- A second record with buy amount zero, mergeable with `zeroRecA`. -/
def zeroRecB : Record :=
  { record_type := "Trade", buyamt := some 0, buycur := "BTC", sellamt := some 2,
    sellcur := "XMR", fee := none, fee_cur := "", exchange := "Poloniex",
    group := "", comment := "", date := "30.08.2016 14:02", tx_id := "b" }

/-- Concrete accumulator operand for merge witnesses. -/
def sumRecA : Record :=
  { record_type := "Trade", buyamt := some 1, buycur := "BTC", sellamt := none,
    sellcur := "XMR", fee := some (1/10), fee_cur := "BTC", exchange := "Poloniex",
    group := "", comment := "note a", date := "30.08.2016 13:31", tx_id := "a" }

/-- Concrete incoming operand for merge witnesses. -/
def sumRecB : Record :=
  { record_type := "Trade", buyamt := some 2, buycur := "BTC", sellamt := some 5,
    sellcur := "XMR", fee := some (2/10), fee_cur := "BTC", exchange := "Poloniex",
    group := "grp b", comment := "note b", date := "30.08.2016 15:00", tx_id := "b" }

/-! ## Helper lemmas -/

theorem head?_dropWhile_not (p : Char → Bool) (l : List Char) :
    ∀ a, (l.dropWhile p).head? = some a → p a = false := by
  induction l with
  | nil => intro a h; simp [List.dropWhile] at h
  | cons c t ih =>
    intro a h
    by_cases hc : p c = true
    · rw [List.dropWhile_cons, if_pos hc] at h
      exact ih a h
    · rw [List.dropWhile_cons, if_neg hc] at h
      obtain rfl : c = a := by simpa using h
      simpa using hc

theorem exists_append_dropWhile (p : Char → Bool) (l : List Char) :
    ∃ t, t ++ l.dropWhile p = l := by
  induction l with
  | nil => exact ⟨[], rfl⟩
  | cons c t ih =>
    by_cases hc : p c = true
    · obtain ⟨u, hu⟩ := ih
      exact ⟨c :: u, by simp [List.dropWhile_cons, hc, hu]⟩
    · exact ⟨[], by simp [List.dropWhile_cons, hc]⟩

theorem stripList_getLast_not_ws (l : List Char) :
    ∀ a, (stripList l).getLast? = some a → a.isWhitespace = false := by
  intro a h
  unfold stripList at h
  rw [List.getLast?_reverse] at h
  exact head?_dropWhile_not _ _ a h

theorem stripList_head_not_ws (l : List Char) :
    ∀ a, (stripList l).head? = some a → a.isWhitespace = false := by
  intro a h
  unfold stripList at h
  rw [List.head?_reverse] at h
  obtain ⟨t, ht⟩ :=
    exists_append_dropWhile Char.isWhitespace (l.dropWhile Char.isWhitespace).reverse
  have hxne :
      (l.dropWhile Char.isWhitespace).reverse.dropWhile Char.isWhitespace ≠ [] := by
    intro hnil
    rw [hnil] at h
    simp at h
  have h2 : ((l.dropWhile Char.isWhitespace).reverse).getLast? = some a := by
    rw [← ht, List.getLast?_append_of_ne_nil t hxne]
    exact h
  rw [List.getLast?_reverse] at h2
  exact head?_dropWhile_not Char.isWhitespace l a h2

theorem exchangeExcluded_congr {e f : String} (h : e = f) :
    exchangeExcluded e = exchangeExcluded f := by rw [h]

theorem stepRec_none (out : List Record) (r : Record) :
    stepRec (out, none) r = (out, some r) := rfl

theorem stepRec_some (out : List Record) (p r : Record) :
    stepRec (out, some p) r =
      if isBinanceLostFee r = true then (out, some p)
      else if Record.eq r p = true then (out, some (Record.add p r))
      else (out ++ [p], some r) := rfl

theorem stepRecAccLeft_none (out : List Record) (r : Record) :
    stepRecAccLeft (out, none) r = (out, some r) := rfl

theorem stepRecAccLeft_some (out : List Record) (p r : Record) :
    stepRecAccLeft (out, some p) r =
      if isBinanceLostFee r = true then (out, some p)
      else if Record.eq p r = true then (out, some (Record.add p r))
      else (out ++ [p], some r) := rfl

theorem stepRecIdx_none (out : List (Nat × Record)) (e : Nat × Record) :
    stepRecIdx (out, none) e = (out, some e) := rfl

theorem stepRecIdx_some (out : List (Nat × Record)) (p e : Nat × Record) :
    stepRecIdx (out, some p) e =
      if isBinanceLostFee e.2 = true then (out, some p)
      else if Record.eq e.2 p.2 = true then (out, some (p.1, Record.add p.2 e.2))
      else (out ++ [p], some e) := rfl

theorem Record.eq_symm (a b : Record) : Record.eq a b = Record.eq b a := by
  unfold Record.eq
  by_cases hA : exchangeExcluded a.exchange = true
  · by_cases hB : exchangeExcluded b.exchange = true
    · simp [hA, hB]
    · rw [if_pos hA, if_neg (by simp [hB])]
      have hne : ¬(b.exchange = a.exchange) := by
        intro hbe
        rw [exchangeExcluded_congr hbe, hA] at hB
        exact hB rfl
      refine Eq.symm (decide_eq_false ?_)
      rintro ⟨-, -, -, h4, -⟩
      exact hne h4
  · by_cases hB : exchangeExcluded b.exchange = true
    · rw [if_neg hA, if_pos hB]
      have hne : ¬(a.exchange = b.exchange) := by
        intro hbe
        rw [exchangeExcluded_congr hbe, hB] at hA
        exact hA rfl
      refine decide_eq_false ?_
      rintro ⟨-, -, -, h4, -⟩
      exact hne h4
    · rw [if_neg hA, if_neg hB, decide_eq_decide]
      constructor
      · rintro ⟨h1, h2, h3, h4, h5, h6⟩
        exact ⟨h1.symm, h2.symm, h3.symm, h4.symm, h5.symm, h6.symm⟩
      · rintro ⟨h1, h2, h3, h4, h5, h6⟩
        exact ⟨h1.symm, h2.symm, h3.symm, h4.symm, h5.symm, h6.symm⟩

theorem stepRecAccLeft_eq_stepRec (acc : List Record × Option Record) (r : Record) :
    stepRecAccLeft acc r = stepRec acc r := by
  obtain ⟨out, prev⟩ := acc
  cases prev with
  | none => rfl
  | some previous =>
    rw [stepRecAccLeft_some, stepRec_some, Record.eq_symm previous r]

theorem foldl_stepRec_isSome (recs : List Record) :
    ∀ out p, ((recs.foldl stepRec (out, some p))).2.isSome = true := by
  induction recs with
  | nil => intro out p; simp
  | cons r rest ih =>
    intro out p
    rw [List.foldl_cons, stepRec_some]
    by_cases h1 : isBinanceLostFee r = true
    · rw [if_pos h1]; exact ih out p
    · rw [if_neg h1]
      by_cases h2 : Record.eq r p = true
      · rw [if_pos h2]; exact ih out (Record.add p r)
      · rw [if_neg h2]; exact ih (out ++ [p]) r

theorem stepRecIdx_some_mk (out : List (Nat × Record)) (i : Nat) (p : Record)
    (k : Nat) (r : Record) :
    stepRecIdx (out, some (i, p)) (k, r) =
      if isBinanceLostFee r = true then (out, some (i, p))
      else if Record.eq r p = true then (out, some (i, Record.add p r))
      else (out ++ [(i, p)], some (k, r)) := rfl

theorem stepRecIdx_proj (stI : List (Nat × Record) × Option (Nat × Record))
    (k : Nat) (r : Record) :
    projSt (stepRecIdx stI (k, r)) = stepRec (projSt stI) r := by
  obtain ⟨outI, prevI⟩ := stI
  cases prevI with
  | none => rfl
  | some p =>
    obtain ⟨i, q⟩ := p
    have hproj : projSt (outI, some (i, q)) = (outI.map Prod.snd, some q) := rfl
    rw [hproj, stepRecIdx_some_mk, stepRec_some]
    by_cases h1 : isBinanceLostFee r = true
    · rw [if_pos h1, if_pos h1]
      rfl
    · rw [if_neg h1, if_neg h1]
      by_cases h2 : Record.eq r q = true
      · rw [if_pos h2, if_pos h2]
        rfl
      · rw [if_neg h2, if_neg h2]
        simp [projSt]

theorem foldl_stepRecIdx_proj (recs : List Record) :
    ∀ (k : Nat) (stI : List (Nat × Record) × Option (Nat × Record)),
      projSt ((List.enumFrom k recs).foldl stepRecIdx stI) =
        recs.foldl stepRec (projSt stI) := by
  induction recs with
  | nil => intro k stI; simp
  | cons r rest ih =>
    intro k stI
    rw [List.enumFrom_cons, List.foldl_cons, List.foldl_cons, ih (k + 1),
      stepRecIdx_proj]

theorem startsOf_some (out : List (Nat × Record)) (i : Nat) (p : Record) :
    startsOf (out, some (i, p)) = out.map Prod.fst ++ [i] := rfl

theorem stepRecIdx_inv (outI : List (Nat × Record)) (prevI : Option (Nat × Record))
    (k : Nat) (r : Record) (h : IdxInv (outI, prevI) k) :
    IdxInv (stepRecIdx (outI, prevI) (k, r)) (k + 1) := by
  obtain ⟨hemp, hchain, hbound⟩ := h
  cases prevI with
  | none =>
    obtain rfl : outI = [] := hemp rfl
    rw [stepRecIdx_none]
    refine ⟨by intro hc; exact absurd hc (by simp), ?_, ?_⟩
    · rw [startsOf_some]
      exact List.chain'_singleton k
    · intro i hi
      rw [startsOf_some] at hi
      simp at hi
      omega
  | some p =>
    obtain ⟨i0, q⟩ := p
    rw [startsOf_some] at hchain hbound
    rw [stepRecIdx_some_mk]
    by_cases h1 : isBinanceLostFee r = true
    · rw [if_pos h1]
      refine ⟨by intro hc; exact absurd hc (by simp), ?_, ?_⟩
      · rw [startsOf_some]
        exact hchain
      · intro i hi
        rw [startsOf_some] at hi
        exact Nat.lt_succ_of_lt (hbound i hi)
    · rw [if_neg h1]
      by_cases h2 : Record.eq r q = true
      · rw [if_pos h2]
        refine ⟨by intro hc; exact absurd hc (by simp), ?_, ?_⟩
        · rw [startsOf_some]
          exact hchain
        · intro i hi
          rw [startsOf_some] at hi
          exact Nat.lt_succ_of_lt (hbound i hi)
      · rw [if_neg h2]
        have hs : startsOf (outI ++ [(i0, q)], some (k, r)) =
            (outI.map Prod.fst ++ [i0]) ++ [k] := by
          simp [startsOf]
        refine ⟨by intro hc; exact absurd hc (by simp), ?_, ?_⟩
        · rw [hs]
          refine List.chain'_append.mpr ⟨hchain, List.chain'_singleton k, ?_⟩
          intro x hx y hy
          simp at hy
          subst hy
          exact hbound x (List.mem_of_mem_getLast? hx)
        · intro i hi
          rw [hs] at hi
          rcases List.mem_append.mp hi with hiold | hik
          · exact Nat.lt_succ_of_lt (hbound i hiold)
          · simp at hik
            omega

theorem foldl_stepRecIdx_inv (recs : List Record) :
    ∀ (k : Nat) (stI : List (Nat × Record) × Option (Nat × Record)),
      IdxInv stI k →
      IdxInv ((List.enumFrom k recs).foldl stepRecIdx stI) (k + recs.length) := by
  induction recs with
  | nil => intro k stI h; simpa using h
  | cons r rest ih =>
    intro k stI h
    rw [List.enumFrom_cons, List.foldl_cons]
    obtain ⟨outI, prevI⟩ := stI
    have h2 := stepRecIdx_inv outI prevI k r h
    have h3 := ih (k + 1) _ h2
    have harith : k + 1 + rest.length = k + (r :: rest).length := by
      simp [List.length_cons]
      omega
    rw [harith] at h3
    exact h3

/-! ## Claim theorems -/

/-- Claim C3: the spec requires that a header with zero data rows produce zero
output records.  The code instead executes the unconditional
`output.append(previous)` with `previous` still `None`, so the output list has
exactly one (spurious) entry, which the writer serialises as the line
`"None"`.  This theorem evaluates the code at the failing input. -/
theorem c3_empty_input_eval : process [] = [none] ∧ (process []).length = 1 :=
  ⟨rfl, rfl⟩

/-- Claim C9: the equivalence predicate `Record.__eq__` is symmetric.  The
exclusion check inspects only the left operand's exchange, but the conjunct
`self.exchange == other.exchange` forces both orders to agree. -/
theorem c9_eq_symmetric : ∀ a b : Record, Record.eq a b = Record.eq b a :=
  Record.eq_symm

/-- Claim C4: the reducer's output on every input sequence equals that of a
reducer that evaluates the predicate as `sameGroup(accumulator, r)` (the
source evaluates `record == previous`, i.e. the incoming record on the left;
by symmetry of the predicate the two reducers coincide extensionally). -/
theorem c4_acc_left_equivalent : ∀ rows : List Row, processAccLeft rows = process rows := by
  intro rows
  unfold processAccLeft process
  rw [show stepRecAccLeft = stepRec from
    funext fun acc => funext fun r => stepRecAccLeft_eq_stepRec acc r]

/-- Claim C6: a merge keeps `recordType`, the currencies, `exchange`,
`feeCurrency`, `date` and `txId` of the accumulator unchanged, and takes
`group` (resp. `comment`) from the accumulator when non-empty, else from the
incoming record.  The date hypothesis records that the accumulator was built
by `__init__`, which stored a stripped date (the merge re-strips it). -/
theorem c6_merge_frame (a b : Record) (hdate : strip a.date = a.date) :
    (Record.add a b).record_type = a.record_type ∧
    (Record.add a b).buycur = a.buycur ∧
    (Record.add a b).sellcur = a.sellcur ∧
    (Record.add a b).exchange = a.exchange ∧
    (Record.add a b).fee_cur = a.fee_cur ∧
    (Record.add a b).date = a.date ∧
    (Record.add a b).tx_id = a.tx_id ∧
    (Record.add a b).group = (if a.group = "" then b.group else a.group) ∧
    (Record.add a b).comment = (if a.comment = "" then b.comment else a.comment) :=
  ⟨rfl, rfl, rfl, rfl, rfl, hdate, rfl, rfl, rfl⟩

/-- Witness for C6 at concrete records. -/
theorem c6_merge_frame_witness :
    (Record.add sumRecA sumRecB).record_type = sumRecA.record_type ∧
    (Record.add sumRecA sumRecB).buycur = sumRecA.buycur ∧
    (Record.add sumRecA sumRecB).sellcur = sumRecA.sellcur ∧
    (Record.add sumRecA sumRecB).exchange = sumRecA.exchange ∧
    (Record.add sumRecA sumRecB).fee_cur = sumRecA.fee_cur ∧
    (Record.add sumRecA sumRecB).date = sumRecA.date ∧
    (Record.add sumRecA sumRecB).tx_id = sumRecA.tx_id ∧
    (Record.add sumRecA sumRecB).group =
      (if sumRecA.group = "" then sumRecB.group else sumRecA.group) ∧
    (Record.add sumRecA sumRecB).comment =
      (if sumRecA.comment = "" then sumRecB.comment else sumRecA.comment) :=
  c6_merge_frame sumRecA sumRecB (by decide)

/-- Claim C10: `__init__` strips surrounding whitespace from `date` and only
from `date` (every other field is stored verbatim); a merged record's date is
the (re-)stripped accumulator date; and a stripped string never starts or
ends with a whitespace character. -/
theorem c10_date_strip :
    (∀ row : Row,
      (Record.ofRow row).date = strip row.date ∧
      (Record.ofRow row).record_type = row.record_type ∧
      (Record.ofRow row).buyamt = row.buyamt ∧
      (Record.ofRow row).buycur = row.buycur ∧
      (Record.ofRow row).sellamt = row.sellamt ∧
      (Record.ofRow row).sellcur = row.sellcur ∧
      (Record.ofRow row).fee = row.fee ∧
      (Record.ofRow row).fee_cur = row.fee_cur ∧
      (Record.ofRow row).exchange = row.exchange ∧
      (Record.ofRow row).group = row.group ∧
      (Record.ofRow row).comment = row.comment ∧
      (Record.ofRow row).tx_id = row.tx_id) ∧
    (∀ a b : Record, (Record.add a b).date = strip a.date) ∧
    (∀ s : String,
      ((strip s).data.head?.all fun c => !c.isWhitespace) = true ∧
      ((strip s).data.getLast?.all fun c => !c.isWhitespace) = true) := by
  refine ⟨fun row => ⟨rfl, rfl, rfl, rfl, rfl, rfl, rfl, rfl, rfl, rfl, rfl, rfl⟩,
    fun a b => rfl, fun s => ⟨?_, ?_⟩⟩
  · cases hh : (strip s).data.head? with
    | none => rfl
    | some c =>
      have hw := stripList_head_not_ws s.data c hh
      show (!c.isWhitespace) = true
      rw [hw]
      rfl
  · cases hh : (strip s).data.getLast? with
    | none => rfl
    | some c =>
      have hw := stripList_getLast_not_ws s.data c hh
      show (!c.isWhitespace) = true
      rw [hw]
      rfl

/-- Claim C5: `sameGroup(a, b)` is false whenever `a.exchange` contains
`"Wallet"` or `"Transaction"` case-insensitively, and otherwise true exactly
when the five identity fields and the date parts agree; in particular two
identical records on exchange `"My Wallet"` are never merged and produce two
separate output records. -/
theorem c5_same_group_characterisation :
    (∀ a b : Record, Record.eq a b = true ↔
      ((∀ exc ∈ exchange_exceptions,
          containsSubstr (lowerStr a.exchange) (lowerStr exc) = false) ∧
        a.record_type = b.record_type ∧ a.buycur = b.buycur ∧
        a.sellcur = b.sellcur ∧ a.exchange = b.exchange ∧
        a.fee_cur = b.fee_cur ∧ datePart a.date = datePart b.date)) ∧
    process [walletRow, walletRow] =
      [some (Record.ofRow walletRow), some (Record.ofRow walletRow)] := by
  constructor
  · intro a b
    unfold Record.eq
    by_cases hA : exchangeExcluded a.exchange = true
    · rw [if_pos hA]
      constructor
      · intro h
        exact absurd h (by simp)
      · rintro ⟨hall, -⟩
        obtain ⟨exc, hmem, hp⟩ := List.any_eq_true.mp hA
        have hf := hall exc hmem
        rw [hf] at hp
        exact absurd hp (by simp)
    · rw [if_neg hA, decide_eq_true_eq]
      have hall : ∀ exc ∈ exchange_exceptions,
          containsSubstr (lowerStr a.exchange) (lowerStr exc) = false := by
        intro exc hmem
        cases hcs : containsSubstr (lowerStr a.exchange) (lowerStr exc) with
        | false => rfl
        | true => exact absurd (List.any_eq_true.mpr ⟨exc, hmem, hcs⟩) hA
      constructor
      · intro hconj
        exact ⟨hall, hconj⟩
      · rintro ⟨-, hconj⟩
        exact hconj
  · decide

/-- Claim C1 (counterexample): a Binance "Lost" fee record arriving as the
FIRST data record is NOT discarded — the `previous is None` branch runs before
the filter, so it becomes the accumulator and is emitted. -/
theorem c1_counterexample :
    isBinanceLostFee (Record.ofRow lostRow) = true ∧
    process [lostRow] = [some (Record.ofRow lostRow)] := by
  decide

/-- Claim C1 (amended): a Binance "Lost" fee record arriving while the reducer
already holds an accumulator (i.e. anywhere except as the first data record)
is discarded entirely: deleting it from the input leaves the output
unchanged. -/
theorem c1_amended (rows1 rows2 : List Row) (lrow : Row) (h1 : rows1 ≠ [])
    (h2 : isBinanceLostFee (Record.ofRow lrow) = true) :
    process (rows1 ++ lrow :: rows2) = process (rows1 ++ rows2) := by
  unfold process
  rw [List.map_append, List.map_append, List.map_cons, List.foldl_append,
    List.foldl_append, List.foldl_cons]
  suffices h : stepRec ((rows1.map Record.ofRow).foldl stepRec ([], none))
      (Record.ofRow lrow) = (rows1.map Record.ofRow).foldl stepRec ([], none) by
    rw [h]
  obtain ⟨r, rs, rfl⟩ := List.exists_cons_of_ne_nil h1
  rw [List.map_cons, List.foldl_cons, stepRec_none]
  have hs : ((rs.map Record.ofRow).foldl stepRec ([], some (Record.ofRow r))).2.isSome
      = true := foldl_stepRec_isSome _ _ _
  obtain ⟨p, hp⟩ := Option.isSome_iff_exists.mp hs
  have hst : (rs.map Record.ofRow).foldl stepRec ([], some (Record.ofRow r)) =
      (((rs.map Record.ofRow).foldl stepRec ([], some (Record.ofRow r))).1, some p) := by
    rw [← hp]
  rw [hst, stepRec_some, if_pos h2]

/-- Witness for C1's amended statement at a concrete input. -/
theorem c1_amended_witness : process [plainRow, lostRow] = process [plainRow] :=
  c1_amended [plainRow] [] lostRow (by decide) (by decide)

/-- Claim C2 (counterexample): two present buy amounts whose exact sum is zero
merge to an ABSENT buy amount — the merged record is rebuilt through
`__init__`, where a zero `Decimal` is falsy and becomes `None` — refuting
"never coerced to absent ... even when the sum is zero". -/
theorem c2_counterexample :
    zeroRecA.buyamt = some 0 ∧ zeroRecB.buyamt = some 0 ∧
    (Record.add zeroRecA zeroRecB).buyamt = none := by
  refine ⟨rfl, rfl, ?_⟩
  show normAmt (sumAmt (some 0) (some 0)) = none
  norm_num [normAmt, sumAmt]

theorem normAmt_sumAmt_none {u v : Option ℚ} (h : u = none ∨ v = none) :
    normAmt (sumAmt u v) = none := by
  rcases h with h | h
  · subst h
    cases v <;> rfl
  · subst h
    cases u <;> rfl

theorem normAmt_sumAmt_some {u v : Option ℚ} {x y : ℚ} (hu : u = some x)
    (hv : v = some y) :
    normAmt (sumAmt u v) = if x + y = 0 then none else some (x + y) := by
  subst hu
  subst hv
  rfl

/-- Claim C2 (amended): each merged amount field (`buyAmount`, `sellAmount`,
`fee`, independently) is absent if either operand's field is absent OR the
exact sum of the two present values is zero, and otherwise equals the exact
decimal sum. -/
theorem c2_amended (a b : Record) :
    ((a.buyamt = none ∨ b.buyamt = none) → (Record.add a b).buyamt = none) ∧
    (∀ x y : ℚ, a.buyamt = some x → b.buyamt = some y →
      (Record.add a b).buyamt = if x + y = 0 then none else some (x + y)) ∧
    ((a.sellamt = none ∨ b.sellamt = none) → (Record.add a b).sellamt = none) ∧
    (∀ x y : ℚ, a.sellamt = some x → b.sellamt = some y →
      (Record.add a b).sellamt = if x + y = 0 then none else some (x + y)) ∧
    ((a.fee = none ∨ b.fee = none) → (Record.add a b).fee = none) ∧
    (∀ x y : ℚ, a.fee = some x → b.fee = some y →
      (Record.add a b).fee = if x + y = 0 then none else some (x + y)) :=
  ⟨fun h => normAmt_sumAmt_none h,
   fun _ _ hx hy => normAmt_sumAmt_some hx hy,
   fun h => normAmt_sumAmt_none h,
   fun _ _ hx hy => normAmt_sumAmt_some hx hy,
   fun h => normAmt_sumAmt_none h,
   fun _ _ hx hy => normAmt_sumAmt_some hx hy⟩

/-- Witness for C2's amended statement at concrete records. -/
theorem c2_amended_witness :
    (Record.add sumRecA sumRecB).sellamt = none ∧
    (Record.add sumRecA sumRecB).buyamt =
      (if (1 : ℚ) + 2 = 0 then none else some (1 + 2)) :=
  ⟨(c2_amended sumRecA sumRecB).2.2.1 (Or.inl rfl),
   (c2_amended sumRecA sumRecB).2.1 1 2 rfl rfl⟩

/-- Claim C7: the worked two-row example merges into exactly one record with
`buyAmount = 4`, `sellAmount = 6`, `fee = 0.3` and the first record's full
date string. -/
theorem c7_worked_example :
    process [poloRow1, poloRow2] = [some c7merged] ∧
    c7merged.buyamt = some 4 ∧ c7merged.sellamt = some 6 ∧
    c7merged.fee = some (3 / 10) ∧ c7merged.date = "30.08.2016 13:31" := by
  refine ⟨?_, ?_, ?_, ?_, by decide⟩
  · unfold process
    rw [List.map_cons, List.map_cons, List.map_nil, List.foldl_cons,
      List.foldl_cons, List.foldl_nil, stepRec_none, stepRec_some,
      if_neg (by decide), if_pos (by decide)]
    rfl
  · show normAmt (sumAmt (some 1) (some 3)) = some 4
    norm_num [normAmt, sumAmt]
  · show normAmt (sumAmt (some 2) (some 4)) = some 6
    norm_num [normAmt, sumAmt]
  · show normAmt (sumAmt (some (1 / 10)) (some (2 / 10))) = some (3 / 10)
    norm_num [normAmt, sumAmt]

/-- Claim C8: the reducer is a single forward pass that never reorders
groups: the output is the position-erasure of the instrumented run (whose
accumulator records the input position of each group's first member), and the
sequence of those first-member positions is strictly increasing, i.e. group
representatives are emitted in the order their groups first appear. -/
theorem c8_order_preserved (rows : List Row) :
    process rows =
      (runIdx (rows.map Record.ofRow)).1.map (fun e => some e.2) ++
        [(runIdx (rows.map Record.ofRow)).2.map Prod.snd] ∧
    List.Chain' (· < ·) (groupStarts rows) := by
  constructor
  · unfold process runIdx
    have h := foldl_stepRecIdx_proj (rows.map Record.ofRow) 0 ([], none)
    have henum : (rows.map Record.ofRow).enum =
        List.enumFrom 0 (rows.map Record.ofRow) := rfl
    have hinit : projSt ([], none) = (([], none) : List Record × Option Record) := rfl
    rw [hinit] at h
    rw [henum, ← h]
    simp [projSt, List.map_map, Function.comp]
  · unfold groupStarts runIdx
    have hinv : IdxInv ([], none) 0 :=
      ⟨fun _ => rfl, by simp [startsOf], by simp [startsOf]⟩
    have h := foldl_stepRecIdx_inv (rows.map Record.ofRow) 0 ([], none) hinv
    have henum : (rows.map Record.ofRow).enum =
        List.enumFrom 0 (rows.map Record.ofRow) := rfl
    rw [henum]
    exact h.2.1
